import Mathlib

/-!
Verification of the incremental accumulators of streamz (dataframe.py).

The embedding models a tabular batch by a single value column, since every
accumulator in the source acts column-wise and independently on each column:
a series batch is a list of rational values, with an optional layer when the
accumulator distinguishes missing entries, and a grouped batch is a list of
key and value pairs.  Floating point numbers are modelled by rationals.
-/

/-- A series batch of non-missing values. -/
abbrev SBatch := List ℚ

/-- A series batch where none models a missing value, so that the sum and the
count of the batch can differ, as in pandas. -/
abbrev OBatch := List (Option ℚ)

/-- Sum of the non-missing entries of a batch, as new.sum() in pandas. -/
def seriesSum (b : OBatch) : ℚ := (b.filterMap id).sum

/-- Number of non-missing entries of a batch, as new.count() in pandas. -/
def seriesCount (b : OBatch) : ℚ := ((b.filterMap id).length : ℚ)

/-- The mean of a batch, the reference value for the mean accumulator. -/
def seriesMean (b : OBatch) : ℚ := seriesSum b / seriesCount b

/-- State of the mean accumulator: the running sums and the running counts,
one pair per output column (dataframe.py lines 222 to 227 keep them as the
rows named sums and counts of an accumulator frame). -/
structure MeanAcc where
  sums : ℚ
  counts : ℚ
deriving DecidableEq

/-- Embeds _accumulate_mean of dataframe.py: copy the accumulator, add the
sum and the count of the new batch, and emit sums divided by counts.  The
copy is value semantics here; the heap model below covers the aliasing. -/
def accumulate_mean (acc : MeanAcc) (new : OBatch) : MeanAcc × ℚ :=
  let a : MeanAcc := { sums := acc.sums + seriesSum new, counts := acc.counts + seriesCount new }
  (a, a.sums / a.counts)

/-- The start value of the mean accumulator: zero sums and zero counts. -/
def meanStart : MeanAcc := { sums := 0, counts := 0 }

/-- State of the mean accumulator after folding a sequence of batches. -/
def meanFold (bs : List OBatch) : MeanAcc :=
  bs.foldl (fun a b => (accumulate_mean a b).1) meanStart

/-- Embeds _accumulate_sum of dataframe.py: the new total is the old total
plus the sum of the batch; the returned value is both state and result. -/
def accumulate_sum (acc : ℚ) (new : SBatch) : ℚ := acc + new.sum

/-- State of the sum accumulator after folding a sequence of batches,
seeded with 0 as in StreamingFrame.sum. -/
def sumFold (bs : List SBatch) : ℚ := bs.foldl accumulate_sum 0

theorem seriesSum_append (a b : OBatch) : seriesSum (a ++ b) = seriesSum a + seriesSum b := by
  simp [seriesSum]

theorem seriesCount_append (a b : OBatch) :
    seriesCount (a ++ b) = seriesCount a + seriesCount b := by
  simp [seriesCount]

theorem meanFold_spec (bs : List OBatch) :
    meanFold bs = { sums := seriesSum bs.flatten, counts := seriesCount bs.flatten } := by
  induction bs using List.reverseRecOn with
  | nil => simp [meanFold, meanStart, seriesSum, seriesCount]
  | append_singleton bs b ih =>
      have h1 : meanFold (bs ++ [b]) = (accumulate_mean (meanFold bs) b).1 := by
        simp [meanFold, List.foldl_append]
      rw [h1, ih]
      simp [accumulate_mean, seriesSum_append, seriesCount_append]

theorem sumFold_spec (bs : List SBatch) : sumFold bs = bs.flatten.sum := by
  induction bs using List.reverseRecOn with
  | nil => simp [sumFold]
  | append_singleton bs b ih =>
      have h1 : sumFold (bs ++ [b]) = accumulate_sum (sumFold bs) b := by
        simp [sumFold, List.foldl_append]
      rw [h1, ih]
      simp [accumulate_sum]

/-- C2: after any history of batches, feeding one more batch makes the mean
accumulator emit exactly the mean of the concatenation of all batches seen so
far, its state holds exactly the sum and the count of that concatenation, and
the state only depends on the concatenation, so any two partitionings of the
same total data give the same state: partition invariance of the mean. -/
theorem C2_mean_partition_invariant :
    (∀ (hist : List OBatch) (new : OBatch),
      (accumulate_mean (meanFold hist) new).2 = seriesMean (hist.flatten ++ new)) ∧
    (∀ (hist : List OBatch) (new : OBatch),
      (accumulate_mean (meanFold hist) new).1 =
        { sums := seriesSum (hist.flatten ++ new), counts := seriesCount (hist.flatten ++ new) }) ∧
    (∀ bs1 bs2 : List OBatch, bs1.flatten = bs2.flatten → meanFold bs1 = meanFold bs2) := by
  refine ⟨?_, ?_, ?_⟩
  · intro hist new
    rw [meanFold_spec]
    simp [accumulate_mean, seriesMean, seriesSum_append, seriesCount_append]
  · intro hist new
    rw [meanFold_spec]
    simp [accumulate_mean, seriesSum_append, seriesCount_append]
  · intro bs1 bs2 h
    rw [meanFold_spec, meanFold_spec, h]

/-- C2 witness: the spec example, values 2 and 4 then 6, gives mean 4 after
the second step, and regrouping the same data does not change the state. -/
theorem C2_mean_partition_invariant_witness :
    (accumulate_mean (meanFold [[some 2, some 4]]) [some 6]).2 =
      seriesMean ([[some 2, some 4]].flatten ++ [some 6]) ∧
    meanFold [[some 2], [some 4]] = meanFold [[some 2, some 4]] :=
  ⟨C2_mean_partition_invariant.1 [[some 2, some 4]] [some 6],
   C2_mean_partition_invariant.2.2 [[some 2], [some 4]] [[some 2, some 4]] (by decide)⟩

/-- C6: the sum accumulator seeded with 0 satisfies, at every step, that the
emitted value is the sum over the concatenation of all batches seen so far,
and the new state coincides with the emitted value, since the step returns a
single value that the engine uses as both. -/
theorem C6_sum_concat :
    (∀ (hist : List SBatch) (new : SBatch),
      accumulate_sum (sumFold hist) new = (hist.flatten ++ new).sum) ∧
    (∀ (hist : List SBatch) (new : SBatch),
      sumFold (hist ++ [new]) = accumulate_sum (sumFold hist) new) := by
  constructor
  · intro hist new
    rw [sumFold_spec]
    simp [accumulate_sum]
  · intro hist new
    simp [sumFold, List.foldl_append]

/-!
Grouped accumulators.  A grouped batch is the list of (group key, value)
pairs obtained by pairing the grouper with the data, one pair per row.  A
per-group table (a pandas series indexed by group key) is a list of keys
together with a valuation; only the values at the listed keys are
observable, through lookupT.
-/

/-- A grouped batch: one (group key, value) pair per row. -/
abbrev GBatch := List (Nat × ℚ)

/-- A per-group table: the index (list of group keys) and the values. -/
structure GTable where
  keys : List Nat
  val : Nat → ℚ

/-- Looking a group up in a table: absent keys give none. -/
def lookupT (t : GTable) (k : Nat) : Option ℚ :=
  if k ∈ t.keys then some (t.val k) else none

/-- The distinct group keys of a batch. -/
def groupKeys (b : GBatch) : List Nat := (b.map Prod.fst).dedup

/-- Total of the values of a batch at one group key. -/
def groupTotal (g : Nat) (b : GBatch) : ℚ :=
  ((b.filter (fun p => p.1 == g)).map Prod.snd).sum

/-- Number of rows of a batch at one group key. -/
def groupCountVal (g : Nat) (b : GBatch) : ℚ :=
  ((b.filter (fun p => p.1 == g)).length : ℚ)

/-- Embeds new.groupby(grouper).sum() on one batch. -/
def groupSum (b : GBatch) : GTable := ⟨groupKeys b, fun g => groupTotal g b⟩

/-- Embeds new.groupby(grouper).count() on one batch. -/
def groupCount (b : GBatch) : GTable := ⟨groupKeys b, fun g => groupCountVal g b⟩

/-- Embeds the additive merge a.add(b, fill_value=0) of pandas: the keys are
the outer union and a key missing on one side contributes zero. -/
def addT (a b : GTable) : GTable :=
  ⟨a.keys ++ b.keys.filter (fun k => decide (k ∉ a.keys)),
   fun k => (if k ∈ a.keys then a.val k else 0) + (if k ∈ b.keys then b.val k else 0)⟩

/-- Embeds the elementwise quotient sums / counts; in every state reached by
the grouped mean accumulator the two tables carry the same index. -/
def divT (s c : GTable) : GTable := ⟨s.keys, fun k => s.val k / c.val k⟩

/-- State of the grouped sum accumulator: the literal integer seed, or the
running per-group table (the source tests isinstance(accumulator, int)). -/
inductive GSumAcc where
  | intStart (n : Int)
  | table (t : GTable)

/-- Embeds _accumulate_groupby_sum of dataframe.py: on the integer seed the
step returns the per-group sum of the batch directly; afterwards it merges
additively with fill value zero. -/
def accumulate_groupby_sum (acc : GSumAcc) (new : GBatch) : GSumAcc :=
  match acc with
  | .intStart _ => .table (groupSum new)
  | .table t => .table (addT t (groupSum new))

/-- State of the grouped sum accumulator after a sequence of batches, seeded
with the literal integer 0 as in StreamingSeriesGroupby.sum. -/
def gsumFold (bs : List GBatch) : GSumAcc :=
  bs.foldl accumulate_groupby_sum (.intStart 0)

/-- Observing a group in the accumulator state: the integer seed carries no
group at all. -/
def lookupAcc (acc : GSumAcc) (g : Nat) : Option ℚ :=
  match acc with
  | .intStart _ => none
  | .table t => lookupT t g

/-- Reference for the grouped running total: the sum of all values carrying
key g across the given rows, or none when the key was never observed. -/
def totalLookup (g : Nat) (l : GBatch) : Option ℚ :=
  if g ∈ l.map Prod.fst then some (groupTotal g l) else none

/-- Reference for the grouped running count. -/
def countLookup (g : Nat) (l : GBatch) : Option ℚ :=
  if g ∈ l.map Prod.fst then some (groupCountVal g l) else none

/-- Reference for the grouped running mean: quotient of total and count. -/
def divLookup (g : Nat) (l : GBatch) : Option ℚ :=
  if g ∈ l.map Prod.fst then some (groupTotal g l / groupCountVal g l) else none

/-- Addition of optional partial aggregates, none acting as the absent side. -/
def oadd : Option ℚ → Option ℚ → Option ℚ
  | none, y => y
  | some x, none => some x
  | some x, some y => some (x + y)

theorem lookupT_groupSum (b : GBatch) (g : Nat) :
    lookupT (groupSum b) g = totalLookup g b := by
  by_cases h : g ∈ b.map Prod.fst <;>
    simp [lookupT, groupSum, groupKeys, totalLookup, List.mem_dedup, h]

theorem lookupT_groupCount (b : GBatch) (g : Nat) :
    lookupT (groupCount b) g = countLookup g b := by
  by_cases h : g ∈ b.map Prod.fst <;>
    simp [lookupT, groupCount, groupKeys, countLookup, List.mem_dedup, h]

theorem mem_addT_keys (a b : GTable) (g : Nat) :
    g ∈ (addT a b).keys ↔ g ∈ a.keys ∨ g ∈ b.keys := by
  simp [addT, List.mem_append, List.mem_filter]
  tauto

theorem lookupT_addT (a b : GTable) (g : Nat) :
    lookupT (addT a b) g = oadd (lookupT a g) (lookupT b g) := by
  by_cases ha : g ∈ a.keys <;> by_cases hb : g ∈ b.keys <;>
    simp [lookupT, mem_addT_keys, addT, ha, hb, oadd]

theorem groupTotal_append (g : Nat) (l1 l2 : GBatch) :
    groupTotal g (l1 ++ l2) = groupTotal g l1 + groupTotal g l2 := by
  simp [groupTotal, List.filter_append]

theorem groupCountVal_append (g : Nat) (l1 l2 : GBatch) :
    groupCountVal g (l1 ++ l2) = groupCountVal g l1 + groupCountVal g l2 := by
  simp [groupCountVal, List.filter_append]

theorem groupTotal_eq_zero (g : Nat) (l : GBatch) (h : g ∉ l.map Prod.fst) :
    groupTotal g l = 0 := by
  have : l.filter (fun p => p.1 == g) = [] := by
    apply List.filter_eq_nil_iff.2
    intro p hp
    simp only [beq_iff_eq]
    intro hpg
    exact h (List.mem_map.2 ⟨p, hp, hpg⟩)
  simp [groupTotal, this]

theorem groupCountVal_eq_zero (g : Nat) (l : GBatch) (h : g ∉ l.map Prod.fst) :
    groupCountVal g l = 0 := by
  have : l.filter (fun p => p.1 == g) = [] := by
    apply List.filter_eq_nil_iff.2
    intro p hp
    simp only [beq_iff_eq]
    intro hpg
    exact h (List.mem_map.2 ⟨p, hp, hpg⟩)
  simp [groupCountVal, this]

theorem totalLookup_append (g : Nat) (l1 l2 : GBatch) :
    totalLookup g (l1 ++ l2) = oadd (totalLookup g l1) (totalLookup g l2) := by
  by_cases h1 : g ∈ l1.map Prod.fst <;> by_cases h2 : g ∈ l2.map Prod.fst
  · simp [totalLookup, h1, h2, oadd, groupTotal_append]
  · simp [totalLookup, h1, h2, oadd, groupTotal_append, groupTotal_eq_zero g l2 h2]
  · simp [totalLookup, h1, h2, oadd, groupTotal_append, groupTotal_eq_zero g l1 h1]
  · simp [totalLookup, h1, h2, oadd]

theorem countLookup_append (g : Nat) (l1 l2 : GBatch) :
    countLookup g (l1 ++ l2) = oadd (countLookup g l1) (countLookup g l2) := by
  by_cases h1 : g ∈ l1.map Prod.fst <;> by_cases h2 : g ∈ l2.map Prod.fst
  · simp [countLookup, h1, h2, oadd, groupCountVal_append]
  · simp [countLookup, h1, h2, oadd, groupCountVal_append, groupCountVal_eq_zero g l2 h2]
  · simp [countLookup, h1, h2, oadd, groupCountVal_append, groupCountVal_eq_zero g l1 h1]
  · simp [countLookup, h1, h2, oadd]

theorem gsumFold_spec (bs : List GBatch) :
    ∀ g, lookupAcc (gsumFold bs) g = totalLookup g bs.flatten := by
  induction bs using List.reverseRecOn with
  | nil => intro g; simp [gsumFold, lookupAcc, totalLookup]
  | append_singleton bs b ih =>
      intro g
      have h1 : gsumFold (bs ++ [b]) = accumulate_groupby_sum (gsumFold bs) b := by
        simp [gsumFold, List.foldl_append]
      rw [h1]
      have hflat : (bs ++ [b]).flatten = bs.flatten ++ b := by simp
      rw [hflat, totalLookup_append]
      cases hacc : gsumFold bs with
      | intStart n =>
          have hnone : totalLookup g bs.flatten = none := by
            rw [← ih g, hacc]; rfl
          simp [accumulate_groupby_sum, lookupAcc, lookupT_groupSum, hnone, oadd]
      | table t =>
          have ht : lookupT t g = totalLookup g bs.flatten := by
            rw [← ih g, hacc]; rfl
          simp [accumulate_groupby_sum, lookupAcc, lookupT_addT, lookupT_groupSum, ht]

/-- C3: for every sequence of batches and every group key, the grouped sum
accumulator seeded with the literal integer 0 holds, after folding the
batches, exactly the sum of all values carrying that key across all rows seen
so far, and a key never observed is absent; moreover the first step returns
the per-group sum of the batch directly, later steps merge with the additive
outer union, a group absent from the old total is seeded from zero, and a
group absent from the current batch keeps its old total. -/
theorem C3_groupby_sum_total :
    (∀ (bs : List GBatch) (g : Nat),
      lookupAcc (gsumFold bs) g = totalLookup g bs.flatten) ∧
    (∀ (n : Int) (b : GBatch),
      accumulate_groupby_sum (.intStart n) b = .table (groupSum b)) ∧
    (∀ (t : GTable) (b : GBatch),
      accumulate_groupby_sum (.table t) b = .table (addT t (groupSum b))) ∧
    (∀ (t : GTable) (b : GBatch) (g : Nat), g ∉ b.map Prod.fst →
      lookupAcc (accumulate_groupby_sum (.table t) b) g = lookupT t g) ∧
    (∀ (t : GTable) (b : GBatch) (g : Nat), g ∉ t.keys → g ∈ b.map Prod.fst →
      lookupAcc (accumulate_groupby_sum (.table t) b) g = some (groupTotal g b)) := by
  refine ⟨gsumFold_spec, fun n b => rfl, fun t b => rfl, ?_, ?_⟩
  · intro t b g hg
    have hb : lookupT (groupSum b) g = none := by
      rw [lookupT_groupSum]
      simp [totalLookup, hg]
    simp [accumulate_groupby_sum, lookupAcc, lookupT_addT, hb, oadd]
    cases lookupT t g <;> simp [oadd]
  · intro t b g ht hg
    have hb : lookupT (groupSum b) g = some (groupTotal g b) := by
      rw [lookupT_groupSum]
      simp [totalLookup, hg]
    have htn : lookupT t g = none := by simp [lookupT, ht]
    simp [accumulate_groupby_sum, lookupAcc, lookupT_addT, hb, htn, oadd]

/-- C3 witness: with a running table holding 5 at key 1, a batch touching
only key 2 leaves key 1 unchanged, and seeds key 2 from zero. -/
theorem C3_groupby_sum_total_witness :
    lookupAcc (accumulate_groupby_sum (.table ⟨[1], fun _ => 5⟩) [(2, 3)]) 1 =
      lookupT ⟨[1], fun _ => 5⟩ 1 ∧
    lookupAcc (accumulate_groupby_sum (.table ⟨[1], fun _ => 5⟩) [(2, 3)]) 2 =
      some (groupTotal 2 [(2, 3)]) :=
  ⟨C3_groupby_sum_total.2.2.2.1 ⟨[1], fun _ => 5⟩ [(2, 3)] 1 (by decide),
   C3_groupby_sum_total.2.2.2.2 ⟨[1], fun _ => 5⟩ [(2, 3)] 2 (by decide) (by decide)⟩

/-- State of the grouped mean accumulator: the integer pair seed (0, 0), or
the running per-group sums and counts tables (the source tests
isinstance(sums, int) for the first batch). -/
inductive GMeanAcc where
  | intStart (s c : Int)
  | tables (sums counts : GTable)

/-- Embeds _accumulate_groupby_mean of dataframe.py: group the batch, on the
first batch take its per-group sum and count directly, otherwise merge both
additively with fill value zero, and emit the full quotient sums / counts
over every group seen so far. -/
def accumulate_groupby_mean (acc : GMeanAcc) (new : GBatch) : GMeanAcc × GTable :=
  match acc with
  | .intStart _ _ =>
      let s := groupSum new
      let c := groupCount new
      (.tables s c, divT s c)
  | .tables s c =>
      let s2 := addT s (groupSum new)
      let c2 := addT c (groupCount new)
      (.tables s2 c2, divT s2 c2)

/-- State of the grouped mean accumulator after a sequence of batches, seeded
with the integer pair (0, 0) as in StreamingSeriesGroupby.mean. -/
def gmeanFold (bs : List GBatch) : GMeanAcc :=
  bs.foldl (fun a b => (accumulate_groupby_mean a b).1) (.intStart 0 0)

/-- The table emitted at the step that consumes the batch new after the
history hist has been folded. -/
def gmeanEmit (hist : List GBatch) (new : GBatch) : GTable :=
  (accumulate_groupby_mean (gmeanFold hist) new).2

theorem gmeanFold_spec (bs : List GBatch) :
    (bs = [] ∧ gmeanFold bs = .intStart 0 0) ∨
    (∃ S C, gmeanFold bs = .tables S C ∧
      (∀ g, lookupT S g = totalLookup g bs.flatten) ∧
      (∀ g, lookupT C g = countLookup g bs.flatten)) := by
  induction bs using List.reverseRecOn with
  | nil => exact Or.inl ⟨rfl, rfl⟩
  | append_singleton bs b ih =>
      right
      have h1 : gmeanFold (bs ++ [b]) = (accumulate_groupby_mean (gmeanFold bs) b).1 := by
        simp [gmeanFold, List.foldl_append]
      have hflat : (bs ++ [b]).flatten = bs.flatten ++ b := by simp
      rcases ih with ⟨hnil, hacc⟩ | ⟨S, C, hacc, hS, hC⟩
      · refine ⟨groupSum b, groupCount b, ?_, ?_, ?_⟩
        · rw [h1, hacc]; rfl
        · intro g
          rw [lookupT_groupSum, hflat, hnil]
          simp
        · intro g
          rw [lookupT_groupCount, hflat, hnil]
          simp
      · refine ⟨addT S (groupSum b), addT C (groupCount b), ?_, ?_, ?_⟩
        · rw [h1, hacc]; rfl
        · intro g
          rw [lookupT_addT, hS, lookupT_groupSum, hflat, totalLookup_append]
        · intro g
          rw [lookupT_addT, hC, lookupT_groupCount, hflat, countLookup_append]

theorem lookupT_divT (S C : GTable) (g : Nat)
    (hS : lookupT S g = totalLookup g l) (hC : lookupT C g = countLookup g l) :
    lookupT (divT S C) g = divLookup g l := by
  by_cases hg : g ∈ l.map Prod.fst
  · have h1 : g ∈ S.keys := by
      by_contra hk
      rw [lookupT, if_neg hk] at hS
      simp [totalLookup, hg] at hS
    have h2 : g ∈ C.keys := by
      by_contra hk
      rw [lookupT, if_neg hk] at hC
      simp [countLookup, hg] at hC
    rw [lookupT, if_pos h1] at hS
    rw [lookupT, if_pos h2] at hC
    simp only [totalLookup, if_pos hg, Option.some_inj] at hS
    simp only [countLookup, if_pos hg, Option.some_inj] at hC
    simp [divT, lookupT, h1, divLookup, hg, hS, hC]
  · have h1 : g ∉ S.keys := by
      by_contra hk
      rw [lookupT, if_pos hk] at hS
      simp [totalLookup, hg] at hS
    simp [divT, lookupT, h1, divLookup, hg]

theorem gmeanEmit_spec (hist : List GBatch) (new : GBatch) (g : Nat) :
    lookupT (gmeanEmit hist new) g = divLookup g (hist.flatten ++ new) := by
  rw [gmeanEmit]
  rcases gmeanFold_spec hist with ⟨hnil, hacc⟩ | ⟨S, C, hacc, hS, hC⟩
  · rw [hacc]
    have h1 : (accumulate_groupby_mean (.intStart 0 0) new).2 =
        divT (groupSum new) (groupCount new) := rfl
    rw [h1]
    apply lookupT_divT
    · rw [lookupT_groupSum, hnil]; simp
    · rw [lookupT_groupCount, hnil]; simp
  · rw [hacc]
    have h1 : (accumulate_groupby_mean (.tables S C) new).2 =
        divT (addT S (groupSum new)) (addT C (groupCount new)) := rfl
    rw [h1]
    apply lookupT_divT
    · rw [lookupT_addT, hS, lookupT_groupSum, totalLookup_append]
    · rw [lookupT_addT, hC, lookupT_groupCount, countLookup_append]

/-- C4: at every step the grouped mean accumulator emits the full quotient of
running sums by running counts over every group seen in any batch so far: a
group is present in the emitted table exactly when it was seen at least once,
its emitted value is the mean of all its values so far, and a group untouched
by the latest batch keeps exactly the mean it had after the previous step. -/
theorem C4_groupby_mean_full_table :
    (∀ (hist : List GBatch) (new : GBatch) (g : Nat),
      lookupT (gmeanEmit hist new) g = divLookup g (hist.flatten ++ new)) ∧
    (∀ (hist : List GBatch) (new : GBatch) (g : Nat),
      g ∈ (gmeanEmit hist new).keys ↔ g ∈ (hist.flatten ++ new).map Prod.fst) ∧
    (∀ (hist : List GBatch) (last new : GBatch) (g : Nat), g ∉ new.map Prod.fst →
      lookupT (gmeanEmit (hist ++ [last]) new) g = lookupT (gmeanEmit hist last) g) := by
  refine ⟨gmeanEmit_spec, ?_, ?_⟩
  · intro hist new g
    have h1 := gmeanEmit_spec hist new g
    constructor
    · intro hk
      by_contra hg
      rw [lookupT, if_pos hk] at h1
      rw [divLookup, if_neg hg] at h1
      exact Option.noConfusion h1
    · intro hg
      by_contra hk
      rw [lookupT, if_neg hk] at h1
      rw [divLookup, if_pos hg] at h1
      exact Option.noConfusion h1
  · intro hist last new g hg
    rw [gmeanEmit_spec, gmeanEmit_spec]
    have hflat : (hist ++ [last]).flatten = hist.flatten ++ last := by simp
    rw [hflat]
    by_cases hmem : g ∈ (hist.flatten ++ last).map Prod.fst
    · have hmem2 : g ∈ ((hist.flatten ++ last) ++ new).map Prod.fst := by
        rw [List.map_append, List.mem_append]
        left
        exact hmem
      rw [divLookup, if_pos hmem2, divLookup, if_pos hmem,
        groupTotal_append, groupCountVal_append,
        groupTotal_eq_zero g new hg, groupCountVal_eq_zero g new hg]
      simp
    · have hmem2 : g ∉ ((hist.flatten ++ last) ++ new).map Prod.fst := by
        rw [List.map_append, List.mem_append]
        rintro (h | h)
        · exact hmem h
        · exact hg h
      rw [divLookup, if_neg hmem2, divLookup, if_neg hmem]

/-- C4 witness: after a batch touching keys 1 and 2, a second batch touching
only key 2 keeps the emitted mean at key 1 unchanged, and the emitted table
after the first batch carries exactly the keys seen. -/
theorem C4_groupby_mean_full_table_witness :
    lookupT (gmeanEmit [[(1, 4), (2, 6)]] [(2, 10)]) 1 =
      lookupT (gmeanEmit [] [(1, 4), (2, 6)]) 1 ∧
    (1 ∈ (gmeanEmit [] [(1, 4), (2, 6)]).keys ↔
      1 ∈ (([] : List GBatch).flatten ++ [(1, 4), (2, 6)]).map Prod.fst) :=
  ⟨C4_groupby_mean_full_table.2.2 [] [(1, 4), (2, 6)] [(2, 10)] 1 (by decide),
   C4_groupby_mean_full_table.2.1 [] [(1, 4), (2, 6)] 1⟩

/-!
Rolling window accumulator.  A frame is a list of rational values for a
row-count window, and a list of (integer time index, value) pairs for a
duration window, the time unit being the resolution of the index.  The
aggregation applied to each window is an arbitrary function from the list of
window values; sum, mean, min and the others are instances.  In pandas a
rolling call without min_periods defaults min_periods to the window size for
an integer window and to 1 for an offset window, and the source calls
df.rolling(window) without forwarding the stored min_periods, so the two
embedded accumulators below fix those defaults.
-/

/-- The reference rolling aggregation of pandas on an integer window: at each
position the window is the up to W previous rows ending there, and the value
is emitted (some) only when at least m rows are in the window, else it is
missing (none, the NaN of pandas). -/
def rollingRows (W m : Nat) (f : List ℚ → ℚ) (df : List ℚ) : List (Option ℚ) :=
  (List.range df.length).map (fun j =>
    if m ≤ min W (j + 1) then some (f ((df.take (j + 1)).drop (j + 1 - W))) else none)

/-- Embeds rolling_accumulator of dataframe.py for an integer window W:
concatenate the backlog with the new batch, aggregate over the whole frame
with df.rolling(W) (whose pandas default min_periods is W, since the source
does not forward min_periods), keep the last W rows as the new backlog, and
emit only the rows past the old backlog. -/
def rolling_accumulator_rows (W : Nat) (f : List ℚ → ℚ) (acc new : List ℚ) :
    List ℚ × List (Option ℚ) :=
  let df := acc ++ new
  let result := rollingRows W W f df
  (df.drop (df.length - W), result.drop acc.length)

/-- Backlog of the integer-window rolling accumulator after a sequence of
batches, starting from the empty backlog (start is the empty tuple). -/
def rollingRowsFold (W : Nat) (f : List ℚ → ℚ) (bs : List (List ℚ)) : List ℚ :=
  bs.foldl (fun a b => (rolling_accumulator_rows W f a b).1) []

/-- The reference emission the spec asks for: the rolling aggregation with
the configured window and configured min_periods computed over the whole
history at once, restricted to the rows of the latest batch. -/
def referenceRollingRows (W m : Nat) (f : List ℚ → ℚ) (hist new : List ℚ) :
    List (Option ℚ) :=
  (rollingRows W m f (hist ++ new)).drop hist.length

/-- A row of a time-indexed frame: integer time index and value. -/
abbrev TRow := Nat × ℚ

/-- Maximum of a list of indices, zero on the empty list. -/
def natMax (xs : List Nat) : Nat := xs.foldr max 0

/-- Largest time index of a frame. -/
def maxIdx (l : List TRow) : Nat := natMax (l.map Prod.fst)

/-- The reference rolling aggregation of pandas on a duration window D: at
each position the window is the earlier rows whose index lies in the left
open interval from the current index minus D to the current index; with a
duration window pandas defaults min_periods to 1 and the window always holds
the current row, so a value is always emitted and the index is kept. -/
def rollingTime (D : Nat) (f : List ℚ → ℚ) (df : List TRow) : List TRow :=
  df.enum.map (fun pr =>
    (pr.2.1, f (((df.take (pr.1 + 1)).filter (fun p => decide (pr.2.1 < p.1 + D))).map Prod.snd)))

/-- Embeds rolling_accumulator of dataframe.py for a duration window D:
concatenate, aggregate over the whole frame, keep as backlog the rows whose
index is at least the largest result index minus D (df.loc with lower bound
result.index.max() minus the window), and emit only the rows past the old
backlog. -/
def rolling_accumulator_time (D : Nat) (f : List ℚ → ℚ) (acc new : List TRow) :
    List TRow × List TRow :=
  let df := acc ++ new
  let result := rollingTime D f df
  (df.filter (fun p => decide (maxIdx result ≤ p.1 + D)), result.drop acc.length)

/-- Backlog of the duration-window rolling accumulator after a sequence of
batches, starting from the empty backlog. -/
def rollingTimeFold (D : Nat) (f : List ℚ → ℚ) (bs : List (List TRow)) : List TRow :=
  bs.foldl (fun a b => (rolling_accumulator_time D f a b).1) []

/-- The trim the duration branch performs, described over any frame: keep the
rows whose index is at least the largest index minus D. -/
def trimTime (D : Nat) (l : List TRow) : List TRow :=
  l.filter (fun p => decide (maxIdx l ≤ p.1 + D))

/-- Smallest time index of a frame, the largest index on the empty list. -/
def minIdx (l : List TRow) : Nat := (l.map Prod.fst).foldr min (maxIdx l)

/-- Time span covered by a frame. -/
def timeSpan (l : List TRow) : Nat := maxIdx l - minIdx l

theorem natMax_init (xs : List Nat) (a : Nat) :
    xs.foldr max a = max (natMax xs) a := by
  induction xs with
  | nil => simp [natMax]
  | cons x xs ih =>
      simp only [List.foldr_cons, natMax] at *
      rw [ih]
      omega

theorem natMax_append (xs ys : List Nat) :
    natMax (xs ++ ys) = max (natMax xs) (natMax ys) := by
  rw [natMax, List.foldr_append, natMax_init]
  rfl

theorem le_natMax (xs : List Nat) (x : Nat) (h : x ∈ xs) : x ≤ natMax xs := by
  induction xs with
  | nil => cases h
  | cons y ys ih =>
      rcases List.mem_cons.1 h with h | h
      · subst h
        simp only [natMax, List.foldr_cons]
        omega
      · have := ih h
        simp only [natMax, List.foldr_cons] at *
        omega

theorem natMax_le (xs : List Nat) (c : Nat) (h : ∀ x ∈ xs, x ≤ c) : natMax xs ≤ c := by
  induction xs with
  | nil => simp [natMax]
  | cons y ys ih =>
      have h1 := h y (List.mem_cons_self y ys)
      have h2 := ih (fun x hx => h x (List.mem_cons_of_mem y hx))
      simp [natMax] at *
      omega

theorem natMax_mem (xs : List Nat) (h : xs ≠ []) : natMax xs ∈ xs := by
  induction xs with
  | nil => exact absurd rfl h
  | cons y ys ih =>
      by_cases hys : ys = []
      · subst hys
        simp [natMax]
      · have hmem := ih hys
        rcases Nat.le_total (ys.foldr max 0) y with hle | hle
        · have hmax : natMax (y :: ys) = y := by
            simp only [natMax, List.foldr_cons]
            omega
          rw [hmax]
          exact List.mem_cons_self y ys
        · have hmax : natMax (y :: ys) = natMax ys := by
            simp only [natMax, List.foldr_cons]
            omega
          rw [hmax]
          exact List.mem_cons_of_mem y hmem

theorem foldr_min_le (xs : List Nat) (a x : Nat) (h : x ∈ xs) : xs.foldr min a ≤ x := by
  induction xs with
  | nil => cases h
  | cons y ys ih =>
      rcases List.mem_cons.1 h with h | h
      · subst h
        simp only [List.foldr_cons]
        omega
      · have := ih h
        simp only [List.foldr_cons] at *
        omega

theorem foldr_min_le_init (xs : List Nat) (a : Nat) : xs.foldr min a ≤ a := by
  induction xs with
  | nil => simp
  | cons y ys ih => simp; omega

theorem foldr_min_lb (xs : List Nat) (a c D : Nat) (h : ∀ x ∈ xs, c ≤ x + D)
    (ha : c ≤ a + D) : c ≤ xs.foldr min a + D := by
  induction xs with
  | nil => simpa
  | cons y ys ih =>
      have h1 := h y (List.mem_cons_self y ys)
      have h2 := ih (fun x hx => h x (List.mem_cons_of_mem y hx))
      simp at *
      omega

theorem rollingRows_length (W m : Nat) (f : List ℚ → ℚ) (df : List ℚ) :
    (rollingRows W m f df).length = df.length := by
  simp [rollingRows]

theorem rollingTime_length (D : Nat) (f : List ℚ → ℚ) (df : List TRow) :
    (rollingTime D f df).length = df.length := by
  simp [rollingTime]

theorem rollingTime_map_fst (D : Nat) (f : List ℚ → ℚ) (df : List TRow) :
    (rollingTime D f df).map Prod.fst = df.map Prod.fst := by
  rw [rollingTime, List.map_map]
  have h1 : (Prod.fst ∘ fun (pr : Nat × TRow) =>
      (pr.2.1, f (((df.take (pr.1 + 1)).filter
        (fun p => decide (pr.2.1 < p.1 + D))).map Prod.snd))) =
      (Prod.fst ∘ Prod.snd) := rfl
  rw [h1, ← List.map_map, List.enum_eq_enumFrom, List.enumFrom_map_snd]

theorem maxIdx_rollingTime (D : Nat) (f : List ℚ → ℚ) (df : List TRow) :
    maxIdx (rollingTime D f df) = maxIdx df := by
  rw [maxIdx, rollingTime_map_fst, maxIdx]

theorem maxIdx_append (a b : List TRow) :
    maxIdx (a ++ b) = max (maxIdx a) (maxIdx b) := by
  simp [maxIdx, natMax_append]

theorem le_maxIdx (l : List TRow) (p : TRow) (h : p ∈ l) : p.1 ≤ maxIdx l :=
  le_natMax _ _ (List.mem_map.2 ⟨p, h, rfl⟩)

theorem maxIdx_trimTime (D : Nat) (l : List TRow) :
    maxIdx (trimTime D l) = maxIdx l := by
  by_cases hl : l = []
  · subst hl; rfl
  · apply Nat.le_antisymm
    · apply natMax_le
      intro x hx
      obtain ⟨p, hp, rfl⟩ := List.mem_map.1 hx
      simp only [trimTime] at hp
      exact le_maxIdx l p (List.mem_filter.1 hp).1
    · have hmem : maxIdx l ∈ l.map Prod.fst := by
        apply natMax_mem
        simpa using hl
      obtain ⟨p, hp, hpx⟩ := List.mem_map.1 hmem
      have hkeep : p ∈ trimTime D l := by
        simp only [trimTime, List.mem_filter]
        exact ⟨hp, by simp [hpx]⟩
      calc maxIdx l = p.1 := hpx.symm
        _ ≤ maxIdx (trimTime D l) := le_maxIdx _ p hkeep

theorem rollingRowsFold_spec (W : Nat) (f : List ℚ → ℚ) (bs : List (List ℚ)) :
    rollingRowsFold W f bs = bs.flatten.drop (bs.flatten.length - W) := by
  induction bs using List.reverseRecOn with
  | nil => simp [rollingRowsFold]
  | append_singleton bs b ih =>
      have h1 : rollingRowsFold W f (bs ++ [b]) =
          (rolling_accumulator_rows W f (rollingRowsFold W f bs) b).1 := by
        simp [rollingRowsFold, List.foldl_append]
      have hflat : (bs ++ [b]).flatten = bs.flatten ++ b := by simp
      rw [h1, ih, hflat]
      simp only [rolling_accumulator_rows]
      rw [← List.drop_append_of_le_length (Nat.sub_le bs.flatten.length W),
        List.drop_drop]
      congr 1
      simp only [List.length_append, List.length_drop]
      omega

theorem rollingTimeFold_spec (D : Nat) (f : List ℚ → ℚ) (bs : List (List TRow)) :
    rollingTimeFold D f bs = trimTime D bs.flatten := by
  induction bs using List.reverseRecOn with
  | nil => simp [rollingTimeFold, trimTime]
  | append_singleton bs b ih =>
      have h1 : rollingTimeFold D f (bs ++ [b]) =
          (rolling_accumulator_time D f (rollingTimeFold D f bs) b).1 := by
        simp [rollingTimeFold, List.foldl_append]
      have hflat : (bs ++ [b]).flatten = bs.flatten ++ b := by simp
      rw [h1, ih, hflat]
      simp only [rolling_accumulator_time]
      rw [maxIdx_rollingTime]
      have hM : maxIdx (trimTime D bs.flatten ++ b) = maxIdx (bs.flatten ++ b) := by
        rw [maxIdx_append, maxIdx_trimTime, maxIdx_append]
      rw [hM]
      have hmono : maxIdx bs.flatten ≤ maxIdx (bs.flatten ++ b) := by
        rw [maxIdx_append]; omega
      conv_rhs => rw [trimTime]
      rw [trimTime, List.filter_append, List.filter_append]
      congr 1
      rw [List.filter_filter]
      apply List.filter_congr
      intro p hp
      by_cases hd : maxIdx (bs.flatten ++ b) ≤ p.1 + D
      · have hd2 : maxIdx bs.flatten ≤ p.1 + D := le_trans hmono hd
        simp [hd, hd2]
      · simp [hd]

theorem timeSpan_trimTime_le (D : Nat) (l : List TRow) : timeSpan (trimTime D l) ≤ D := by
  have hM := maxIdx_trimTime D l
  have hlb : maxIdx l ≤ minIdx (trimTime D l) + D := by
    rw [minIdx]
    apply foldr_min_lb
    · intro x hx
      obtain ⟨p, hp, rfl⟩ := List.mem_map.1 hx
      simp only [trimTime, List.mem_filter, decide_eq_true_eq] at hp
      exact hp.2
    · rw [hM]
      omega
  rw [timeSpan, hM]
  omega

theorem trimTime_eq_self_of_span_lt (D : Nat) (l : List TRow) (h : timeSpan l < D) :
    trimTime D l = l := by
  rw [trimTime, List.filter_eq_self]
  intro p hp
  have h1 : minIdx l ≤ p.1 := foldr_min_le _ _ _ (List.mem_map.2 ⟨p, hp, rfl⟩)
  rw [timeSpan] at h
  simp only [decide_eq_true_eq]
  omega

/-- C5 counterexample: with the duration window 3 and the two single-row
batches at time indices 0 and 10, the cumulative history spans 10, at least
one window, yet the retained backlog is the single row at index 10, whose
time span 0 is smaller than the window: the claimed lower bound on the
backlog span fails for duration windows. -/
theorem C5_duration_span_counterexample :
    3 ≤ timeSpan ([[(0, (1 : ℚ))], [(10, 1)]].flatten) ∧
    timeSpan (rollingTimeFold 3 List.sum [[(0, (1 : ℚ))], [(10, 1)]]) < 3 ∧
    rollingTimeFold 3 List.sum [[(0, (1 : ℚ))], [(10, 1)]] = [(10, 1)] := by
  decide

/-- C5 amended: after any sequence of batches, an integer window of size W
keeps exactly the last W rows of the history (all rows when fewer exist), so
the retained row count is the minimum of W and the cumulative row count, at
least W as soon as the history holds W rows and exactly the history
otherwise; a duration window D keeps exactly the rows whose index is at
least the maximum index minus D, the retained time span is always at most D
(not at least D), and the whole history is retained as long as the
cumulative span is below D. -/
theorem C5_backlog_amended :
    (∀ (W : Nat) (f : List ℚ → ℚ) (bs : List (List ℚ)), 1 ≤ W →
      rollingRowsFold W f bs = bs.flatten.drop (bs.flatten.length - W)) ∧
    (∀ (W : Nat) (f : List ℚ → ℚ) (bs : List (List ℚ)), 1 ≤ W →
      (rollingRowsFold W f bs).length = min W bs.flatten.length) ∧
    (∀ (D : Nat) (f : List ℚ → ℚ) (bs : List (List TRow)),
      rollingTimeFold D f bs = trimTime D bs.flatten) ∧
    (∀ (D : Nat) (f : List ℚ → ℚ) (bs : List (List TRow)),
      timeSpan (rollingTimeFold D f bs) ≤ D) ∧
    (∀ (D : Nat) (f : List ℚ → ℚ) (bs : List (List TRow)), timeSpan bs.flatten < D →
      rollingTimeFold D f bs = bs.flatten) := by
  refine ⟨fun W f bs _ => rollingRowsFold_spec W f bs, ?_, ?_, ?_, ?_⟩
  · intro W f bs _
    rw [rollingRowsFold_spec, List.length_drop]
    omega
  · intro D f bs
    exact rollingTimeFold_spec D f bs
  · intro D f bs
    rw [rollingTimeFold_spec]
    exact timeSpan_trimTime_le D bs.flatten
  · intro D f bs h
    rw [rollingTimeFold_spec]
    exact trimTime_eq_self_of_span_lt D bs.flatten h

/-- C5 amended witness: the batches of one row each at values 1, 2, 3 with
window 2 keep the last two rows, of count 2, and a duration window larger
than the whole span keeps everything. -/
theorem C5_backlog_amended_witness :
    rollingRowsFold 2 List.sum [[1], [2], [3]] =
      [[(1 : ℚ)], [2], [3]].flatten.drop ([[(1 : ℚ)], [2], [3]].flatten.length - 2) ∧
    (rollingRowsFold 2 List.sum [[1], [2], [3]]).length =
      min 2 [[(1 : ℚ)], [2], [3]].flatten.length ∧
    rollingTimeFold 9 List.sum [[(0, (1 : ℚ))], [(5, 2)]] =
      [[(0, (1 : ℚ))], [(5, 2)]].flatten :=
  ⟨C5_backlog_amended.1 2 List.sum [[1], [2], [3]] (by decide),
   C5_backlog_amended.2.1 2 List.sum [[1], [2], [3]] (by decide),
   C5_backlog_amended.2.2.2.2 9 List.sum [[(0, (1 : ℚ))], [(5, 2)]] (by decide)⟩

/-- C1: the source stores the configured min_periods on the Rolling handle
but calls df.rolling(window) without forwarding it, so for an integer window
pandas applies its default min_periods equal to the window size.  At the
concrete input of the spec example, window 2 rows with configured
min_periods 1 and a first batch holding the single value 1, the accumulator
emits a missing value while the reference rolling sum over the whole history
restricted to the rows of the batch, computed with the configured
min_periods, emits 1: the code diverges from the claim on its first step. -/
theorem C1_rolling_min_periods_divergence :
    (rolling_accumulator_rows 2 List.sum [] [1]).2 = [none] ∧
    referenceRollingRows 2 1 List.sum [] [1] = [some 1] ∧
    (rolling_accumulator_rows 2 List.sum [] [1]).2 ≠
      referenceRollingRows 2 1 List.sum [] [1] := by
  have h1 : (rolling_accumulator_rows 2 List.sum [] [1]).2 = [none] := by
    norm_num [rolling_accumulator_rows, rollingRows, List.range_succ, List.range_zero]
  have h2 : referenceRollingRows 2 1 List.sum [] [1] = [some 1] := by
    norm_num [referenceRollingRows, rollingRows, List.range_succ, List.range_zero]
  refine ⟨h1, h2, ?_⟩
  rw [h1, h2]
  simp

/-- C8 counterexample: feeding a zero-row batch to the rolling accumulator
does not re-emit the previous result.  After the first batch with the single
value 1 and window 1, the emission was the single windowed value; feeding an
empty batch afterwards leaves the backlog alone but emits the empty frame,
not the previous result. -/
theorem C8_empty_batch_counterexample :
    rollingRowsFold 1 List.sum [[1]] = [1] ∧
    (rolling_accumulator_rows 1 List.sum [] [1]).2 = [some 1] ∧
    (rolling_accumulator_rows 1 List.sum [1] []).2 = [] ∧
    (rolling_accumulator_rows 1 List.sum [1] []).2 ≠
      (rolling_accumulator_rows 1 List.sum [] [1]).2 := by
  have h2 : (rolling_accumulator_rows 1 List.sum [] [1]).2 = [some 1] := by
    norm_num [rolling_accumulator_rows, rollingRows, List.range_succ, List.range_zero]
  have h3 : (rolling_accumulator_rows 1 List.sum [1] []).2 = [] := by
    simp [rolling_accumulator_rows, rollingRows, List.range_succ, List.range_zero]
  refine ⟨by decide, h2, h3, ?_⟩
  rw [h2, h3]
  simp

/-- C8 amended: a zero-row batch leaves every accumulator state unchanged up
to value equality, and it also leaves the emitted result unchanged for the
sum, mean, grouped sum and grouped mean accumulators; the rolling
accumulator instead emits the empty frame for a zero-row batch, since its
emission is the slice of the windowed result past the old backlog.  The
rolling state parts assume the state shape every reachable backlog has: at
most W rows for an integer window, and trim invariance for a duration
window; the grouped mean part assumes the shared index that sums and counts
always have in reachable states. -/
theorem C8_empty_batch_amended :
    (∀ acc : ℚ, accumulate_sum acc [] = acc) ∧
    (∀ acc : MeanAcc, accumulate_mean acc [] = (acc, acc.sums / acc.counts)) ∧
    (∀ (W : Nat) (f : List ℚ → ℚ) (acc : List ℚ), acc.length ≤ W →
      rolling_accumulator_rows W f acc [] = (acc, [])) ∧
    (∀ (D : Nat) (f : List ℚ → ℚ) (acc : List TRow), trimTime D acc = acc →
      rolling_accumulator_time D f acc [] = (acc, [])) ∧
    (∀ (t : GTable) (g : Nat),
      lookupAcc (accumulate_groupby_sum (.table t) []) g = lookupT t g) ∧
    (∀ S C : GTable, C.keys = S.keys →
      ∃ S2 C2, accumulate_groupby_mean (.tables S C) [] = (.tables S2 C2, divT S2 C2) ∧
        (∀ g, lookupT S2 g = lookupT S g) ∧
        (∀ g, lookupT C2 g = lookupT C g) ∧
        (∀ g, lookupT (divT S2 C2) g = lookupT (divT S C) g)) := by
  refine ⟨?_, ?_, ?_, ?_, ?_, ?_⟩
  · intro acc
    simp [accumulate_sum]
  · intro acc
    cases acc
    simp [accumulate_mean, seriesSum, seriesCount]
  · intro W f acc h
    have hsub : acc.length - W = 0 := Nat.sub_eq_zero_of_le h
    have hlen : (rollingRows W W f acc).length ≤ acc.length := by
      rw [rollingRows_length]
    simp [rolling_accumulator_rows, hsub, List.drop_eq_nil_of_le hlen]
  · intro D f acc h
    rw [trimTime] at h
    have h3 : (rollingTime D f acc).drop acc.length = [] := by
      apply List.drop_eq_nil_of_le
      rw [rollingTime_length]
    simp only [rolling_accumulator_time, List.append_nil, maxIdx_rollingTime]
    rw [h, h3]
  · intro t g
    have h0 : lookupT (groupSum []) g = none := by simp [lookupT, groupSum, groupKeys]
    simp only [accumulate_groupby_sum, lookupAcc, lookupT_addT, h0]
    cases lookupT t g <;> simp [oadd]
  · intro S C hK
    refine ⟨addT S (groupSum []), addT C (groupCount []), rfl, ?_, ?_, ?_⟩
    · intro g
      have h0 : lookupT (groupSum []) g = none := by simp [lookupT, groupSum, groupKeys]
      rw [lookupT_addT, h0]
      cases lookupT S g <;> simp [oadd]
    · intro g
      have h0 : lookupT (groupCount []) g = none := by simp [lookupT, groupCount, groupKeys]
      rw [lookupT_addT, h0]
      cases lookupT C g <;> simp [oadd]
    · intro g
      by_cases hg : g ∈ S.keys
      · have hgc : g ∈ C.keys := by rw [hK]; exact hg
        simp [divT, lookupT, addT, groupSum, groupCount, groupKeys, hg, hgc]
      · have hgc : g ∉ C.keys := by rw [hK]; exact hg
        simp [divT, lookupT, addT, groupSum, groupCount, groupKeys, hg, hgc]

/-- C8 amended witness: concrete empty-batch steps on each accumulator with
a hypothesis, at reachable states. -/
theorem C8_empty_batch_amended_witness :
    rolling_accumulator_rows 2 List.sum [5] [] = ([5], []) ∧
    rolling_accumulator_time 2 List.sum [(4, 5)] [] = ([(4, 5)], []) ∧
    (∃ S2 C2,
      accumulate_groupby_mean (.tables ⟨[1], fun _ => 6⟩ ⟨[1], fun _ => 2⟩) [] =
        (.tables S2 C2, divT S2 C2) ∧
      (∀ g, lookupT S2 g = lookupT ⟨[1], fun _ => 6⟩ g) ∧
      (∀ g, lookupT C2 g = lookupT ⟨[1], fun _ => 2⟩ g) ∧
      (∀ g, lookupT (divT S2 C2) g = lookupT (divT ⟨[1], fun _ => 6⟩ ⟨[1], fun _ => 2⟩) g)) :=
  ⟨C8_empty_batch_amended.2.2.1 2 List.sum [5] (by decide),
   C8_empty_batch_amended.2.2.2.1 2 List.sum [(4, 5)] (by decide),
   C8_empty_batch_amended.2.2.2.2.2 ⟨[1], fun _ => 6⟩ ⟨[1], fun _ => 2⟩ rfl⟩

/-!
Facade verification and attribute dispatch.
-/

/-- A dataframe batch as the verification step sees it: its ordered column
list and its rows. -/
structure DFBatch where
  columns : List String
  rows : List (List ℚ)

/-- Embeds StreamingDataFrame.verify of dataframe.py: an arriving batch
whose column list differs, order sensitively, from the column list of the
prototype raises an IndexError. -/
def verifyColumns (proto : List String) (x : DFBatch) : Except String Unit :=
  if x.columns = proto then Except.ok ()
  else Except.error ("IndexError: input columns do not match the example columns")

/-- Modelled from the spec: the delivery of one batch by the dataflow engine
(the Streaming collaborator in collection.py, not part of this repository
snapshot), which verifies the batch against the prototype before invoking
the accumulation step, so a failed verification leaves the accumulator
state untouched and surfaces the error. -/
def deliver {σ ρ : Type} (proto : List String) (step : σ → DFBatch → σ × ρ)
    (s : σ) (x : DFBatch) : σ × Except String ρ :=
  match verifyColumns proto x with
  | Except.error e => (s, Except.error e)
  | Except.ok _ =>
      let r := step s x
      (r.1, Except.ok r.2)

/-- C7: delivering a batch whose column list differs from the prototype
column list surfaces the shape error and returns the accumulator state held
before the step, unchanged. -/
theorem C7_shape_error {σ ρ : Type} (proto : List String) (step : σ → DFBatch → σ × ρ)
    (s : σ) (x : DFBatch) (h : x.columns ≠ proto) :
    deliver proto step s x =
      (s, Except.error ("IndexError: input columns do not match the example columns")) := by
  simp [deliver, verifyColumns, h]

/-- C7 witness: a batch with column b against a prototype with column a
fails verification and leaves the state 5 unchanged. -/
theorem C7_shape_error_witness :
    deliver ["a"] (fun (s : ℚ) _ => (s + 1, s)) 5 ⟨["b"], []⟩ =
      (5, Except.error ("IndexError: input columns do not match the example columns")) :=
  C7_shape_error ["a"] (fun (s : ℚ) _ => (s + 1, s)) 5 ⟨["b"], []⟩ (by decide)

/-- Outcome of an attribute access on a facade. -/
inductive AttrResult where
  | column (key : String)
  | methodAttr (key : String)
  | attrError (key : String)
deriving DecidableEq

/-- The attribute names python resolves on a StreamingDataFrame before its
getattr fallback runs: its methods and instance slots. -/
def dataFrameMethods : List String :=
  ["stream", "example", "columns", "sum", "round", "rolling", "mean", "groupby",
   "assign", "to_frame", "verify", "map_partitions", "accumulate_partitions", "emit"]

/-- The attribute names python resolves on a Rolling handle before its
getattr fallback runs. -/
def rollingMethods : List String :=
  ["sdf", "window", "min_periods", "sum", "mean", "min", "max", "median",
   "std", "var", "count", "aggregate", "quantile"]

/-- The attribute names python resolves on a StreamingSeriesGroupby handle
before its getattr fallback runs. -/
def groupbyMethods : List String :=
  ["root", "grouper", "index", "sum", "mean"]

/-- Embeds attribute access on StreamingDataFrame: known attributes resolve
normally; the getattr fallback returns a column projection when the key is a
column of the prototype or when the prototype has no columns at all, and
raises AttributeError otherwise (dataframe.py lines 141 to 145). -/
def streamingDataFrame_getattr (cols : List String) (key : String) : AttrResult :=
  if key ∈ dataFrameMethods then .methodAttr key
  else if key ∈ cols ∨ cols = [] then .column key
  else .attrError key

/-- Embeds attribute access on Rolling (dataframe.py lines 60 to 64). -/
def rolling_getattr (cols : List String) (key : String) : AttrResult :=
  if key ∈ rollingMethods then .methodAttr key
  else if key ∈ cols ∨ cols = [] then .column key
  else .attrError key

/-- Embeds attribute access on StreamingSeriesGroupby (dataframe.py lines
247 to 251). -/
def groupby_getattr (cols : List String) (key : String) : AttrResult :=
  if key ∈ groupbyMethods then .methodAttr key
  else if key ∈ cols ∨ cols = [] then .column key
  else .attrError key

/-- Tests whether an attribute access raised. -/
def isAttrError : AttrResult → Bool
  | .attrError _ => true
  | _ => false

/-- C9 counterexample: on a facade whose prototype has no columns, an
attribute name that is neither a column nor a recognized method does not
raise: the getattr fallback returns a column projection because the source
also accepts any key when the column list is empty. -/
theorem C9_empty_columns_counterexample :
    "foo" ∉ dataFrameMethods ∧
    streamingDataFrame_getattr [] "foo" = AttrResult.column "foo" ∧
    isAttrError (streamingDataFrame_getattr [] "foo") = false := by
  decide

/-- C9 amended: on every facade whose prototype has at least one column, an
attribute name that is neither a column of the prototype nor a recognized
method raises AttributeError; with an empty prototype column list the access
instead resolves to a column projection. -/
theorem C9_unknown_attribute_error :
    (∀ (cols : List String) (key : String),
      key ∉ dataFrameMethods → key ∉ cols → cols ≠ [] →
      streamingDataFrame_getattr cols key = .attrError key) ∧
    (∀ (cols : List String) (key : String),
      key ∉ rollingMethods → key ∉ cols → cols ≠ [] →
      rolling_getattr cols key = .attrError key) ∧
    (∀ (cols : List String) (key : String),
      key ∉ groupbyMethods → key ∉ cols → cols ≠ [] →
      groupby_getattr cols key = .attrError key) := by
  refine ⟨?_, ?_, ?_⟩ <;> intro cols key h1 h2 h3 <;>
    simp [streamingDataFrame_getattr, rolling_getattr, groupby_getattr, h1, h2, h3]

/-- C9 witness: the attribute b on each facade with the single column a. -/
theorem C9_unknown_attribute_error_witness :
    streamingDataFrame_getattr ["a"] "b" = AttrResult.attrError "b" ∧
    rolling_getattr ["a"] "b" = AttrResult.attrError "b" ∧
    groupby_getattr ["a"] "b" = AttrResult.attrError "b" :=
  ⟨C9_unknown_attribute_error.1 ["a"] "b" (by decide) (by decide) (by decide),
   C9_unknown_attribute_error.2.1 ["a"] "b" (by decide) (by decide) (by decide),
   C9_unknown_attribute_error.2.2 ["a"] "b" (by decide) (by decide) (by decide)⟩

/-!
Heap model for the aliasing discipline of the step functions.  A store is a
list of python objects of one type, an address is a position, reading with a
default, writing in place, and allocation at the end.  The pandas calls that
build new objects (groupby sum, add, concat, rolling) allocate; the mean
step first allocates a copy of its state object and then writes the updated
sums and counts in place into the copy only. -/

/-- Read the object at an address, with a default for dangling addresses. -/
def readS {V : Type} (h : List V) (a : Nat) (d : V) : V := h.getD a d

/-- Overwrite the object at an address in place. -/
def writeS {V : Type} (h : List V) (a : Nat) (v : V) : List V := h.set a v

/-- Allocate a fresh object, returning the new store and its address. -/
def allocS {V : Type} (h : List V) (v : V) : List V × Nat := (h ++ [v], h.length)

/-- Heap version of _accumulate_mean: accumulator.copy() allocates, the two
in-place additions write into the copy, and the result is read back from the
copy; the object the caller passed in is never written. -/
def accumulate_mean_heap (h : List MeanAcc) (a : Nat) (new : OBatch) :
    List MeanAcc × Nat × ℚ :=
  let acc := readS h a meanStart
  let p := allocS h acc
  let v := readS p.1 p.2 meanStart
  let v2 : MeanAcc := { sums := v.sums + seriesSum new, counts := v.counts + seriesCount new }
  let h2 := writeS p.1 p.2 v2
  let r := readS h2 p.2 meanStart
  (h2, p.2, r.sums / r.counts)

/-- Heap version of _accumulate_groupby_sum: the merged table returned by
the pandas add call is a fresh allocation; no write touches the store. -/
def accumulate_groupby_sum_heap (h : List GSumAcc) (a : Nat) (new : GBatch) :
    List GSumAcc × Nat :=
  allocS h (accumulate_groupby_sum (readS h a (.intStart 0)) new)

/-- Heap version of _accumulate_groupby_mean: fresh sums and counts tables
are allocated; no write touches the store. -/
def accumulate_groupby_mean_heap (h : List GMeanAcc) (a : Nat) (new : GBatch) :
    List GMeanAcc × Nat × GTable :=
  let r := accumulate_groupby_mean (readS h a (.intStart 0 0)) new
  let p := allocS h r.1
  (p.1, p.2, r.2)

/-- Heap version of rolling_accumulator on an integer window: the
concatenated frame trimmed to the new backlog is a fresh allocation; no
write touches the store. -/
def rolling_accumulator_rows_heap (W : Nat) (f : List ℚ → ℚ) (h : List (List ℚ))
    (a : Nat) (new : List ℚ) : List (List ℚ) × Nat × List (Option ℚ) :=
  let r := rolling_accumulator_rows W f (readS h a []) new
  let p := allocS h r.1
  (p.1, p.2, r.2)

theorem getD_append_left {V : Type} (l1 l2 : List V) (a : Nat) (d : V)
    (h : a < l1.length) : (l1 ++ l2).getD a d = l1.getD a d := by
  induction l1 generalizing a with
  | nil => simp at h
  | cons x xs ih =>
      cases a with
      | zero => rfl
      | succ n =>
          simp only [List.cons_append, List.getD_cons_succ]
          exact ih n (by simpa using h)

theorem getD_append_self {V : Type} (l : List V) (v d : V) :
    (l ++ [v]).getD l.length d = v := by
  induction l with
  | nil => rfl
  | cons x xs ih => simp [ih]

theorem set_append_self {V : Type} (l : List V) (x v : V) :
    (l ++ [x]).set l.length v = l ++ [v] := by
  induction l with
  | nil => rfl
  | cons y ys ih =>
      simp only [List.cons_append, List.length_cons, List.set_cons_succ, ih]

/-- C10: every step function leaves the object the caller passed in intact:
after the step runs, reading the old address gives the same object as
before, and the address of the new state object is distinct from the old
one; for the mean step the new object holds exactly the value of the pure
step, so the only in-place writes go into the freshly allocated copy. -/
theorem C10_steps_preserve_state :
    (∀ (h : List MeanAcc) (a : Nat) (new : OBatch), a < h.length →
      readS (accumulate_mean_heap h a new).1 a meanStart = readS h a meanStart ∧
      (accumulate_mean_heap h a new).2.1 ≠ a ∧
      readS (accumulate_mean_heap h a new).1 (accumulate_mean_heap h a new).2.1 meanStart =
        (accumulate_mean (readS h a meanStart) new).1) ∧
    (∀ (h : List GSumAcc) (a : Nat) (new : GBatch), a < h.length →
      readS (accumulate_groupby_sum_heap h a new).1 a (.intStart 0) =
        readS h a (.intStart 0) ∧
      (accumulate_groupby_sum_heap h a new).2 ≠ a) ∧
    (∀ (h : List GMeanAcc) (a : Nat) (new : GBatch), a < h.length →
      readS (accumulate_groupby_mean_heap h a new).1 a (.intStart 0 0) =
        readS h a (.intStart 0 0) ∧
      (accumulate_groupby_mean_heap h a new).2.1 ≠ a) ∧
    (∀ (W : Nat) (f : List ℚ → ℚ) (h : List (List ℚ)) (a : Nat) (new : List ℚ),
      a < h.length →
      readS (rolling_accumulator_rows_heap W f h a new).1 a [] = readS h a [] ∧
      (rolling_accumulator_rows_heap W f h a new).2.1 ≠ a) := by
  refine ⟨?_, ?_, ?_, ?_⟩
  · intro h a new ha
    have hheap : (accumulate_mean_heap h a new).1 =
        h ++ [{ sums := (readS h a meanStart).sums + seriesSum new,
                counts := (readS h a meanStart).counts + seriesCount new }] := by
      simp only [accumulate_mean_heap, allocS, writeS, readS]
      rw [getD_append_self, set_append_self]
    have haddr : (accumulate_mean_heap h a new).2.1 = h.length := rfl
    refine ⟨?_, ?_, ?_⟩
    · rw [hheap, readS, readS, getD_append_left _ _ _ _ ha]
    · rw [haddr]
      omega
    · rw [hheap, haddr, readS, getD_append_self]
      rfl
  · intro h a new ha
    constructor
    · rw [readS, readS]
      exact getD_append_left _ _ _ _ ha
    · show h.length ≠ a
      omega
  · intro h a new ha
    constructor
    · rw [readS, readS]
      exact getD_append_left _ _ _ _ ha
    · show h.length ≠ a
      omega
  · intro W f h a new ha
    constructor
    · rw [readS, readS]
      exact getD_append_left _ _ _ _ ha
    · show h.length ≠ a
      omega

/-- C10 witness: concrete one-cell stores for each step. -/
theorem C10_steps_preserve_state_witness :
    readS (accumulate_mean_heap [meanStart] 0 [some 1]).1 0 meanStart =
      readS [meanStart] 0 meanStart ∧
    (accumulate_groupby_sum_heap [GSumAcc.intStart 0] 0 [(1, 2)]).2 ≠ 0 ∧
    (accumulate_groupby_mean_heap [GMeanAcc.intStart 0 0] 0 [(1, 2)]).2.1 ≠ 0 ∧
    (rolling_accumulator_rows_heap 2 List.sum [[]] 0 [1]).2.1 ≠ 0 :=
  ⟨(C10_steps_preserve_state.1 [meanStart] 0 [some 1] (by decide)).1,
   (C10_steps_preserve_state.2.1 [.intStart 0] 0 [(1, 2)] (by decide)).2,
   (C10_steps_preserve_state.2.2.1 [.intStart 0 0] 0 [(1, 2)] (by decide)).2,
   (C10_steps_preserve_state.2.2.2 2 List.sum [[]] 0 [1] (by decide)).2⟩
